import Mathlib

/-
Verification of the aria2 download-orchestration relay
(src/bot/plugins/aria2.py).

The embedding below translates the registry state and the state-mutating
operations of `Aria2WebSocketServer` and the `Aria2` plugin facade into
pure Lean functions.  Awaited external calls (engine RPC, Google Drive,
filesystem, notification channel) are represented by their observable
inputs (parameters of the functions) and outputs (an `Effect` trace).
Python `dict` fields become association lists keyed by gid; `del` on a
missing key and attribute access on `None` are modelled with `Except PyErr`.
Python sets become lists used as sets.
-/

namespace Aria2Spec

deriving instance DecidableEq for Except

abbrev Gid := String

/-- Python exceptions that the modelled code can raise. -/
inductive PyErr
  | keyError
  | attributeError
  | typeError
  deriving DecidableEq, Repr

/-- Result of `file.is_file()` / `file.is_dir()` on the download path:
the path resolves to a regular file, to a directory, or to neither
(the "not accessible" branch of `onDownloadComplete`). -/
inductive PathKind
  | file
  | dir
  | inaccessible
  deriving DecidableEq, Repr

/-- Snapshot of one download as re-queried from the engine
(`util.aria2.Download` fields that the orchestrator reads). -/
structure Download where
  gid : Gid
  name : String
  status : String
  metadata : Bool
  pathKind : PathKind
  bittorrent : Bool
  errorMessage : String
  errorCode : String
  deriving DecidableEq, Repr

/-- Upload state stored in `self.uploads[gid]`: a resumable file-upload
handle (`MediaFileUpload`, start timestamp), or the folder-upload record
`{"generator": folderTasks, "counter": n}` (the generator itself is
opaque; only the counter is observable). -/
inductive UploadState
  | fileUpload (startTime : Nat)
  | folderUpload (counter : Nat)
  deriving DecidableEq, Repr

/-- The active notification context (`self.context`): we track only
whether `context.response` is non-None, which is what `checkDelete` and
`addDownload` test. -/
structure Ctx where
  hasResponse : Bool
  deriving DecidableEq, Repr

/-- Structured payload of an outbound notification message.  The exact
Markdown rendering (`human_readable_bytes`, f-strings) lives in util
helpers outside this module; the payload carries everything interpolated
into the corresponding f-string of the source. -/
inductive MsgText
  | folderComplete (name folderId : String) (indexLink : Option String)
  | fileComplete (name : String) (webContentLink : String) (size : Nat)
      (indexLink : Option String)
  | errorReport (name status errorMessage errorCode : String)
  deriving DecidableEq, Repr

/-- Observable side effects of the orchestrator on its collaborators. -/
inductive Effect
  | deleteResponse
  | respondReply (text : MsgText)
  | cancelTask (name : String)
  | closeGenerator (gid : Gid)
  | uploadFileCall (gid : Gid)
  | createFolderCall (name : String)
  | decryptRun (gid : Gid)
  | spawnSeed (name : String)
  deriving DecidableEq, Repr

/-- Lookup in a Python-dict-as-association-list. -/
def mlookup {β : Type} (m : List (Gid × β)) (g : Gid) : Option β :=
  match m with
  | [] => none
  | p :: rest => if p.1 = g then some p.2 else mlookup rest g

/-- Remove every entry with key `g` (used to model both overwrite and
`del`). -/
def mErase {β : Type} (m : List (Gid × β)) (g : Gid) : List (Gid × β) :=
  m.filter (fun p => decide (p.1 ≠ g))

/-- `m[g] = b` on a Python dict. -/
def mInsert {β : Type} (m : List (Gid × β)) (g : Gid) (b : β) : List (Gid × β) :=
  (g, b) :: mErase m g

/-- `del m[g]`: raises `KeyError` when the key is absent. -/
def mDelete {β : Type} (m : List (Gid × β)) (g : Gid) :
    Except PyErr (List (Gid × β)) :=
  if (mlookup m g).isSome = true then Except.ok (mErase m g)
  else Except.error PyErr.keyError

/-- `set.add` on a Python set modelled as a duplicate-free list. -/
def setAdd (l : List Gid) (g : Gid) : List Gid :=
  if g ∈ l then l else g :: l

/-- State owned by `Aria2WebSocketServer`: the cancelled-pending set, the
download and upload registries, the active notification context, the
mega (decrypt-pending) set, the names of live background tasks of the
event loop, and the immutable `index_link` configuration. -/
structure WSState where
  cancelled : List Gid
  downloads : List (Gid × Download)
  uploads : List (Gid × UploadState)
  context : Option Ctx
  mega : List Gid
  tasks : List String
  indexLink : Option String
  deriving DecidableEq, Repr

/-- `self.context is not None and self.context.response is not None`. -/
def hasActiveResponse (s : WSState) : Bool :=
  match s.context with
  | some c => c.hasResponse
  | none => false

/-- `Aria2WebSocketServer.checkDelete` (lines 134-137): when the registry
is empty and an active notification with a response exists, delete the
response message and clear the context slot. -/
def checkDelete (s : WSState) : WSState × List Effect :=
  if s.downloads.length = 0 ∧ hasActiveResponse s = true then
    ({ s with context := none }, [Effect.deleteResponse])
  else (s, [])

/-- `Aria2WebSocketServer.onDownloadStart` (lines 144-149): re-query the
engine (result `d`) and insert the record. -/
def onDownloadStart (s : WSState) (gid : Gid) (d : Download) : WSState :=
  { s with downloads := mInsert s.downloads gid d }

/-- Result of awaiting one task of the lazy folder-upload sequence inside
the `async for` drive loop of `onDownloadComplete`. -/
inductive TaskOutcome
  | ok
  | cancelled
  deriving DecidableEq, Repr

/-- The `async for task in folderTasks` drive loop (lines 200-209): each
successful task increments `self.uploads[gid]["counter"]` under the lock;
an `asyncio.CancelledError` sets the local `cancelled` flag and breaks.
Returns the state and the `cancelled` flag.  A missing uploads entry
raises `KeyError`, a non-dict entry `TypeError`, as in Python. -/
def driveLoop (gid : Gid) : WSState → List TaskOutcome →
    Except PyErr (WSState × Bool)
  | s, [] => Except.ok (s, false)
  | s, TaskOutcome.cancelled :: _ => Except.ok (s, true)
  | s, TaskOutcome.ok :: rest =>
    match mlookup s.uploads gid with
    | some (UploadState.folderUpload n) =>
        driveLoop gid
          { s with uploads := mInsert s.uploads gid (UploadState.folderUpload (n + 1)) }
          rest
    | some (UploadState.fileUpload _) => Except.error PyErr.typeError
    | none => Except.error PyErr.keyError

/-- Line 242-244: after classification, a torrent-based download spawns
the detached seeding task named `Seed-{gid}`. -/
def afterSeed (s : WSState) (gid : Gid) (d : Download) (effs : List Effect) :
    WSState × List Effect :=
  if d.bittorrent = true then
    ({ s with tasks := s.tasks ++ ["Seed-" ++ gid] },
     effs ++ [Effect.spawnSeed ("Seed-" ++ gid)])
  else (s, effs)

/-- Environment inputs consumed by one run of `onDownloadComplete`: the
updated record after the decrypt-and-rename (mega branch), the folder id
returned by `createFolder`, and the outcomes of awaiting the folder
upload tasks in order. -/
structure CompleteEnv where
  megaOut : Download
  folderId : String
  folderOutcomes : List TaskOutcome
  deriving DecidableEq, Repr

/-- `Aria2WebSocketServer.onDownloadComplete` (lines 151-244) run to
completion without interleaving.  `d` is the record re-queried at entry.
Branches: metadata-only drop; file (with the mega decrypt relay when the
gid is in the mega set) handed to `drive.uploadFile`; directory driven
through the lazy folder-task sequence with the folder-complete
notification on full success; inaccessible path dropped with a warning.
In the empty-registry folder branch (lines 223-230) the code evaluates
`self.context.response.delete()`: with no context, or a context whose
response message is `None`, this raises `AttributeError` before any
effect.  Torrent-based downloads finally spawn the seeding task. -/
def onDownloadComplete (s0 : WSState) (gid : Gid) (d : Download)
    (env : CompleteEnv) : Except PyErr (WSState × List Effect) := do
  let s1 : WSState := { s0 with downloads := mInsert s0.downloads gid d }
  if d.metadata = true then
    let dl ← mDelete s1.downloads gid
    return ({ s1 with downloads := dl }, [])
  else
    match d.pathKind with
    | PathKind.file =>
      if gid ∈ s1.mega then do
        let dl ← mDelete s1.downloads gid
        let s2 : WSState := { s1 with downloads := dl }
        let s3 : WSState := { s2 with
          mega := s2.mega.filter (fun g => decide (g ≠ gid)),
          downloads := mInsert s2.downloads gid env.megaOut,
          uploads := mInsert s2.uploads gid (UploadState.fileUpload 0) }
        return afterSeed s3 gid d [Effect.decryptRun gid, Effect.uploadFileCall gid]
      else
        let s2 : WSState :=
          { s1 with uploads := mInsert s1.uploads gid (UploadState.fileUpload 0) }
        return afterSeed s2 gid d [Effect.uploadFileCall gid]
    | PathKind.dir => do
      let s2 : WSState :=
        { s1 with uploads := mInsert s1.uploads gid (UploadState.folderUpload 0) }
      let res ← driveLoop gid s2 env.folderOutcomes
      if res.2 = true then
        return afterSeed res.1 gid d [Effect.createFolderCall d.name]
      else do
        let ups ← mDelete res.1.uploads gid
        let dls ← mDelete res.1.downloads gid
        let s4 : WSState := { res.1 with uploads := ups, downloads := dls }
        let link := MsgText.folderComplete d.name env.folderId s4.indexLink
        if s4.downloads.length = 0 then
          match s4.context with
          | none => Except.error PyErr.attributeError
          | some c =>
            if c.hasResponse = true then
              return afterSeed { s4 with context := none } gid d
                [Effect.createFolderCall d.name, Effect.respondReply link,
                 Effect.deleteResponse]
            else Except.error PyErr.attributeError
        else
          match s4.context with
          | none => Except.error PyErr.attributeError
          | some _ =>
            return afterSeed s4 gid d
              [Effect.createFolderCall d.name, Effect.respondReply link]
    | PathKind.inaccessible => do
      let dl ← mDelete s1.downloads gid
      return afterSeed { s1 with downloads := dl } gid d []

/-- `Aria2WebSocketServer.onDownloadError` (lines 246-261): respond with
the error report (via `self.context.msg`, `AttributeError` when no
context), delete the record, `checkDelete`. -/
def onDownloadError (s : WSState) (d : Download) :
    Except PyErr (WSState × List Effect) :=
  match s.context with
  | none => Except.error PyErr.attributeError
  | some _ => do
    let effs := [Effect.respondReply
      (MsgText.errorReport d.name d.status d.errorMessage d.errorCode)]
    let dl ← mDelete s.downloads d.gid
    let s2 : WSState := { s with downloads := dl }
    let cd := checkDelete s2
    Except.ok (cd.1, effs ++ cd.2)

/-- One iteration of the cancellation-unwind loop at the top of
`updateProgress` (lines 334-354), processing one gid of
`self.cancelled.copy()` under the lock: drop the download record if
present; for a file upload drop the upload state; for a folder upload
cancel every event-loop task named exactly `gid`, close the lazy
generator, and drop the upload state; remove the gid from the cancelled
set; finally `checkDelete`. -/
def unwindOne (s : WSState) (gid : Gid) : WSState × List Effect :=
  let step1 : Option Download × WSState :=
    match mlookup s.downloads gid with
    | some d => (some d, { s with downloads := mErase s.downloads gid })
    | none => (none, s)
  let step2 : WSState × List Effect :=
    match step1.1 with
    | some d =>
      if d.pathKind = PathKind.file ∧ (mlookup step1.2.uploads gid).isSome = true then
        ({ step1.2 with uploads := mErase step1.2.uploads gid }, [])
      else if d.pathKind = PathKind.dir ∧ (mlookup step1.2.uploads gid).isSome = true then
        ({ step1.2 with
             uploads := mErase step1.2.uploads gid,
             tasks := step1.2.tasks.filter (fun n => decide (n ≠ gid)) },
         (step1.2.tasks.filter (fun n => n == gid)).map Effect.cancelTask
           ++ [Effect.closeGenerator gid])
      else (step1.2, [])
    | none => (step1.2, [])
  let s3 : WSState :=
    { step2.1 with cancelled := step2.1.cancelled.filter (fun g => decide (g ≠ gid)) }
  let cd := checkDelete s3
  (cd.1, step2.2 ++ cd.2)

/-- The rate-limit guard of `updateProgress` (lines 363-365), with
Python operator precedence: `last_update_time is None or
((now - last_update_time).total_seconds() >= 5 and progress != "")`. -/
def shouldEmit (last : Option Nat) (now : Nat) (progress : String) : Bool :=
  match last with
  | none => true
  | some t => decide (5 ≤ now - t) && decide (progress ≠ "")

/-- The emission step of one `updateProgress` tick (lines 361-375): when
the guard holds, `self.context.respond(progress)` is attempted (only if a
context is installed) and the `finally` block stamps
`last_update_time = now`; otherwise nothing happens.  Returns (whether a
respond call was made, the new `last_update_time`). -/
def emitStep (last : Option Nat) (now : Nat) (progress : String)
    (ctx : Option Ctx) : Bool × Option Nat :=
  if shouldEmit last now progress = true then (ctx.isSome, some now)
  else (false, last)

/-- Emission condition exactly as the specification words it, for
comparison with `shouldEmit`: progress non-empty AND (first emission or
at least 5 seconds elapsed). -/
def specClaimedEmit (last : Option Nat) (now : Nat) (progress : String) : Bool :=
  decide (progress ≠ "") &&
    (match last with
     | none => true
     | some t => decide (5 ≤ now - t))

/-- Attributes of the `MediaFileUpload` handle that `uploadProgress`
reads (`file.name`, `file.gid`, `file.start_time`). -/
structure UploadHandle where
  name : String
  gid : Gid
  start_time : Nat
  deriving DecidableEq, Repr

/-- The partial-status object returned by `next_chunk` while the upload
is still in flight. -/
structure ChunkStatus where
  total_size : Nat
  resumable_progress : Nat
  deriving DecidableEq, Repr

/-- The terminal response object returned by `next_chunk` when the upload
finishes (`size`, `webContentLink`). -/
structure ChunkResponse where
  size : Nat
  webContentLink : String
  deriving DecidableEq, Repr

/-- Payload of the mid-upload progress string built at lines 386-403; the
percent / speed / eta / bullet-bar rendering of these numbers is string
formatting and is carried structurally. -/
structure ProgressMsg where
  name : String
  gid : Gid
  totalSize : Nat
  uploaded : Nat
  elapsed : Nat
  deriving DecidableEq, Repr

/-- `Aria2WebSocketServer.uploadProgress` (lines 379-422).  `status` and
`response` are the pair produced by `file.next_chunk(num_retries=5)`.
While a partial status with no terminal response is present the progress
payload is returned with `done = false`.  Otherwise the code evaluates
`response.get("size")`: with `response = None` this raises
`AttributeError`.  On a terminal response the lock block at lines
416-421 first sends the result notification via `self.context.msg` —
with no context installed this dereferences `None` and raises
`AttributeError` before either `del` runs — then deletes both registry
entries for the gid (`KeyError` when absent) followed by
`checkDelete`. -/
def uploadProgress (s : WSState) (f : UploadHandle) (status : Option ChunkStatus)
    (response : Option ChunkResponse) (now : Nat) :
    Except PyErr (WSState × Option ProgressMsg × Bool × List Effect) :=
  let progress : Option ProgressMsg :=
    match status with
    | some st =>
        some { name := f.name, gid := f.gid, totalSize := st.total_size,
               uploaded := st.resumable_progress, elapsed := now - f.start_time }
    | none => none
  if response.isNone = true ∧ progress.isSome = true then
    Except.ok (s, progress, false, [])
  else
    match response with
    | none => Except.error PyErr.attributeError
    | some r =>
      let fileMsg := MsgText.fileComplete f.name r.webContentLink r.size s.indexLink
      match s.context with
      | none => Except.error PyErr.attributeError
      | some _ => do
        let ups ← mDelete s.uploads f.gid
        let dls ← mDelete s.downloads f.gid
        let s2 : WSState := { s with uploads := ups, downloads := dls }
        let cd := checkDelete s2
        Except.ok (cd.1, none, true, Effect.respondReply fileMsg :: cd.2)

/-- Engine control operations issued by `cancelMirror`. -/
inductive EngineOp
  | forcePause
  | forceRemove
  deriving DecidableEq, Repr

/-- The fields of `tellStatus(gid, ["status", "followedBy"])` read by
`cancelMirror`; a missing `followedBy` key is the empty list
(`res.get("followedBy")` falsy). -/
structure StatusRes where
  status : String
  followedBy : List Gid
  deriving DecidableEq, Repr

/-- The refusal message returned for a finished-metadata gid
(line 543). -/
def cancelRefuseMsg : String :=
  "__GID belongs to finished Metadata, can\x27t be abort.__"

/-- `Aria2.cancelMirror` (lines 527-546) after a successful
`tellStatus` query `res`: active downloads are force-paused then
force-removed; a complete download with a non-empty `followedBy` is
refused; every non-refused path adds the gid to the pending-cancellation
set and returns `None`.  Result: (returned message, new state, engine
operations issued). -/
def cancelMirror (s : WSState) (gid : Gid) (res : StatusRes) :
    Option String × WSState × List EngineOp :=
  let metadata : Bool := !res.followedBy.isEmpty
  if res.status = "active" then
    (none, { s with cancelled := setAdd s.cancelled gid },
     [EngineOp.forcePause, EngineOp.forceRemove])
  else if res.status = "complete" ∧ metadata = true then
    (some cancelRefuseMsg, s, [])
  else
    (none, { s with cancelled := setAdd s.cancelled gid }, [])

/-- The two input shapes accepted by `Aria2.addDownload`. -/
inductive DlSource
  | uri (u : String)
  | torrent (bytes : List Nat)
  deriving DecidableEq, Repr

/-- Outcome of the engine call (`addUri` / `addTorrent`): the assigned
gid, or an `Aria2rpcException` whose structured payload carries
`res["error"]["message"]`. -/
inductive EngineResult
  | accepted (gid : String)
  | rejected (errMsg : String)
  deriving DecidableEq, Repr

/-- `Aria2._formatSE` (lines 486-489): parse the structured error payload
of the exception and wrap its `error.message` field. -/
def formatSE (errMsg : String) : String := "__" ++ errMsg ++ "__"

/-- Lines 509-512 of `addDownload`: under the lock, delete the previous
active notification (when it has a response) and install the new
context. -/
def installContext (s : WSState) (ctx : Ctx) : WSState × List Effect :=
  if hasActiveResponse s = true then
    ({ s with context := some ctx }, [Effect.deleteResponse])
  else ({ s with context := some ctx }, [])

/-- `Aria2.addDownload` (lines 491-519).  For a URI string the engine
call is guarded: a rejection returns the formatted error text before the
context is installed.  For torrent bytes the `addTorrent` call is NOT
guarded (a rejection propagates as `Except.error`) and its gid is never
captured, so on acceptance the function installs the context and returns
`none`.  For an accepted URI the gid is returned (and added to the mega
set if requested) when Python finds it truthy, i.e. non-empty. -/
def addDownload (s : WSState) (ctx : Ctx) (src : DlSource)
    (engine : EngineResult) (mega : Bool) :
    Except String (Option String × WSState × List Effect) :=
  match src, engine with
  | DlSource.uri _, EngineResult.rejected e =>
      Except.ok (some (formatSE e), s, [])
  | DlSource.uri _, EngineResult.accepted gid =>
      let ic := installContext s ctx
      if gid ≠ "" then
        let s2 := if mega = true then { ic.1 with mega := setAdd ic.1.mega gid } else ic.1
        Except.ok (some gid, s2, ic.2)
      else Except.ok (none, ic.1, ic.2)
  | DlSource.torrent _, EngineResult.rejected e => Except.error e
  | DlSource.torrent _, EngineResult.accepted _ =>
      let ic := installContext s ctx
      Except.ok (none, ic.1, ic.2)

/-- Modelled from the spec: the decryption backend (`aes.decrypt` of the
Mega plugin) is not under src/; per the specification it is a streaming
`decrypt(chunk) -> chunk` transform consumed chunk-by-chunk by the relay
of `onDownloadComplete` (lines 174-181), so it is modelled as a
stateful byte-stream transform: byte `i` of the ciphertext stream is
combined (CTR-style XOR) with keystream byte `i`.  `decryptFrom ks off c`
decrypts chunk `c` starting at stream offset `off`. -/
def decryptFrom (ks : Nat → Nat) : Nat → List Nat → List Nat
  | _, [] => []
  | off, b :: bs => (b ^^^ ks off) :: decryptFrom ks (off + 1) bs

/-- The decrypt relay loop of `onDownloadComplete` (lines 174-181): read
the ciphertext chunks in order, decrypt each with the stateful stream
transform, and flush each output chunk to the writer.  Returns the list
of output chunks in write order. -/
def relayDecrypt (ks : Nat → Nat) : Nat → List (List Nat) → List (List Nat)
  | _, [] => []
  | off, c :: cs => decryptFrom ks off c :: relayDecrypt ks (off + c.length) cs

/-- Combined system state for interleaving analysis: the server state
plus the completion-handler coroutines currently suspended between the
requery/classification of `onDownloadComplete` (lines 155-163) and the
upload-insert lock block (lines 189-190). -/
structure SysState where
  ws : WSState
  pendingFileInsert : List (Gid × Download)
  deriving DecidableEq, Repr

/-- Atomic steps of the cooperative scheduler, one per lock-protected
block (states between actions are exactly the lock-free observable
states).  The machine models the code paths needed for the registry
subset analysis: `onDownloadStart`; the entry block of
`onDownloadComplete` for a metadata or plain-file (non-mega) download,
which parks the coroutine before the upload-insert block; the
upload-insert block itself; `cancelMirror`'s marking; and one
cancellation-unwind iteration of `updateProgress`. -/
inductive Action
  | onStart (gid : Gid) (d : Download)
  | completeBegin (gid : Gid) (d : Download)
  | completeFileInsert (gid : Gid)
  | markCancel (gid : Gid)
  | unwind (gid : Gid)
  deriving DecidableEq, Repr

/-- Interpreter of one atomic step. -/
def applyA (σ : SysState) : Action → SysState
  | Action.onStart g d =>
      { σ with ws := onDownloadStart σ.ws g d }
  | Action.completeBegin g d =>
      let ws1 : WSState := { σ.ws with downloads := mInsert σ.ws.downloads g d }
      if d.metadata = true then
        { σ with ws := { ws1 with downloads := mErase ws1.downloads g } }
      else if d.pathKind = PathKind.file ∧ ¬ (g ∈ ws1.mega) then
        { ws := ws1, pendingFileInsert := (g, d) :: σ.pendingFileInsert }
      else { σ with ws := ws1 }
  | Action.completeFileInsert g =>
      match mlookup σ.pendingFileInsert g with
      | some _ =>
          { ws := { σ.ws with
              uploads := mInsert σ.ws.uploads g (UploadState.fileUpload 0) },
            pendingFileInsert := mErase σ.pendingFileInsert g }
      | none => σ
  | Action.markCancel g =>
      { σ with ws := { σ.ws with cancelled := setAdd σ.ws.cancelled g } }
  | Action.unwind g =>
      if g ∈ σ.ws.cancelled then { σ with ws := (unwindOne σ.ws g).1 } else σ

/-- The freshly initialised server state (`__init__`, lines 64-77). -/
def initWS : WSState :=
  { cancelled := [], downloads := [], uploads := [], context := none,
    mega := [], tasks := [], indexLink := none }

/-- Initial combined state: fresh server, no suspended handlers. -/
def initSys : SysState := { ws := initWS, pendingFileInsert := [] }

/-- Run a schedule of atomic steps from the initial state. -/
def runTrace (acts : List Action) : SysState := acts.foldl applyA initSys

/-- Every key of the first map is a key of the second. -/
def subKeys (ups : List (Gid × UploadState)) (dls : List (Gid × Download)) :
    Bool :=
  ups.all (fun p => (mlookup dls p.1).isSome)

/-- Registry invariant (1) of the spec as a decidable check: every key of
the upload map is also a key of the download map. -/
def uploadsSubB (s : WSState) : Bool :=
  subKeys s.uploads s.downloads

/-- Projection of a non-raising result. -/
def okPart {α : Type} (e : Except PyErr α) : Option α :=
  match e with
  | Except.ok a => some a
  | Except.error _ => none

/-- Sample plain (non-metadata, non-torrent) file download. -/
def sampleFileDl : Download :=
  { gid := "g", name := "n", status := "complete", metadata := false,
    pathKind := PathKind.file, bittorrent := false,
    errorMessage := "", errorCode := "" }

/-- Sample metadata-only completion record. -/
def sampleMetaDl : Download :=
  { gid := "g", name := "n", status := "complete", metadata := true,
    pathKind := PathKind.file, bittorrent := false,
    errorMessage := "", errorCode := "" }

/-- Sample record whose re-queried path has become inaccessible while an
upload entry is live — the situation after the mega branch unlinks the
source file (aria2.py:182): aria2 still reports the unlinked path, so at
unwind time both `is_file()` and `is_dir()` are false. -/
def sampleInaccDl : Download :=
  { gid := "g", name := "n", status := "complete", metadata := false,
    pathKind := PathKind.inaccessible, bittorrent := false,
    errorMessage := "", errorCode := "" }

/-- Sample directory download. -/
def sampleDirDl : Download :=
  { gid := "g", name := "n", status := "complete", metadata := false,
    pathKind := PathKind.dir, bittorrent := false,
    errorMessage := "", errorCode := "" }

/-- Sample completion environment. -/
def sampleEnv : CompleteEnv :=
  { megaOut := sampleFileDl, folderId := "fid", folderOutcomes := [] }

/-- The registry state after the atomic delete-both step for gid `g`
(`del self.uploads[g]; del self.downloads[g]` under the lock). -/
def eraseBoth (s : WSState) (g : Gid) : WSState :=
  { s with uploads := mErase s.uploads g, downloads := mErase s.downloads g }

/-- The registry state produced by the folder branch of one
cancellation-unwind iteration, before `checkDelete`. -/
def unwindDirState (s : WSState) (gid : Gid) : WSState :=
  { s with downloads := mErase s.downloads gid,
           uploads := mErase s.uploads gid,
           tasks := s.tasks.filter (fun n => decide (n ≠ gid)),
           cancelled := s.cancelled.filter (fun g => decide (g ≠ gid)) }

/- ------------------------------------------------------------------ -/
/- Lemmas about the association-map primitives.                        -/
/- ------------------------------------------------------------------ -/

theorem mlookup_mErase {β : Type} (m : List (Gid × β)) (g k : Gid) :
    mlookup (mErase m g) k = if k = g then none else mlookup m k := by
  induction m with
  | nil => simp [mErase, mlookup]
  | cons p rest ih =>
    rcases p with ⟨a, b⟩
    by_cases hag : a = g
    · have h1 : mErase ((a, b) :: rest) g = mErase rest g := by
        simp [mErase, List.filter_cons, hag]
      rw [h1, ih]
      by_cases hk : k = g
      · simp [hk]
      · have hak : ¬(a = k) := fun h => hk (h.symm.trans hag)
        simp [hk, mlookup, hak]
    · have h1 : mErase ((a, b) :: rest) g = (a, b) :: mErase rest g := by
        simp [mErase, List.filter_cons, hag]
      rw [h1]
      by_cases hak : a = k
      · have hk : ¬(k = g) := fun h => hag (hak.trans h)
        simp [mlookup, hak, hk]
      · simp [mlookup, hak, ih]

theorem mlookup_mInsert {β : Type} (m : List (Gid × β)) (g k : Gid) (b : β) :
    mlookup (mInsert m g b) k = if k = g then some b else mlookup m k := by
  by_cases hk : k = g
  · simp [mInsert, mlookup, hk]
  · have hgk : ¬(g = k) := fun h => hk h.symm
    simp [mInsert, mlookup, hgk, hk, mlookup_mErase]

theorem mErase_idem {β : Type} (m : List (Gid × β)) (g : Gid) :
    mErase (mErase m g) g = mErase m g := by
  induction m with
  | nil => rfl
  | cons p rest ih =>
    by_cases hp : p.1 = g
    · have e1 : mErase (p :: rest) g = mErase rest g := by
        simp [mErase, List.filter_cons, hp]
      rw [e1, ih]
    · have e1 : mErase (p :: rest) g = p :: mErase rest g := by
        simp [mErase, List.filter_cons, hp]
      rw [e1]
      have e2 : mErase (p :: mErase rest g) g = p :: mErase (mErase rest g) g := by
        simp [mErase, List.filter_cons, hp]
      rw [e2, ih]

theorem mErase_mInsert {β : Type} (m : List (Gid × β)) (g : Gid) (b : β) :
    mErase (mInsert m g b) g = mErase m g := by
  have h1 : mErase (mInsert m g b) g = mErase (mErase m g) g := by
    simp [mInsert, mErase, List.filter_cons]
  rw [h1, mErase_idem]

theorem mem_mErase {β : Type} (m : List (Gid × β)) (g : Gid) (p : Gid × β) :
    p ∈ mErase m g ↔ p ∈ m ∧ ¬(p.1 = g) := by
  simp [mErase, List.mem_filter]

theorem mem_mInsert {β : Type} (m : List (Gid × β)) (g : Gid) (b : β)
    (p : Gid × β) :
    p ∈ mInsert m g b ↔ p = (g, b) ∨ (p ∈ m ∧ ¬(p.1 = g)) := by
  simp [mInsert, mem_mErase]

theorem mlookup_isSome {β : Type} (m : List (Gid × β)) (k : Gid) :
    (mlookup m k).isSome = true ↔ ∃ b, (k, b) ∈ m := by
  induction m with
  | nil => simp [mlookup]
  | cons p rest ih =>
    by_cases hp : p.1 = k
    · simp [mlookup, hp]
      exact ⟨p.2, Or.inl (by rw [← hp])⟩
    · simp [mlookup, hp, ih]
      constructor
      · intro ⟨b, hb⟩
        exact ⟨b, Or.inr hb⟩
      · intro ⟨b, hb⟩
        cases hb with
        | inl h =>
          exact absurd (congrArg Prod.fst h).symm hp
        | inr h => exact ⟨b, h⟩

/- ------------------------------------------------------------------ -/
/- Claim theorems.                                                     -/
/- ------------------------------------------------------------------ -/

/-- C10: `uploadProgress` returns a progress/done pair only when
`next_chunk` yielded a non-None partial status or a non-None final
response; when both components are `None` it dereferences the `None`
response (`response.get("size")`) and raises `AttributeError` instead of
returning. -/
theorem claim_c10 (s : WSState) (f : UploadHandle) (now : Nat) :
    uploadProgress s f none none now = Except.error PyErr.attributeError := rfl

/-- C5: `cancelMirror` returns the refusal message and does not mark the
gid pending-cancellation exactly when the queried status is `complete`
with a non-empty `followedBy`; every other successfully queried status
marks the gid pending-cancellation and returns nothing, with force-pause
followed by force-remove issued exactly when the status is `active`. -/
theorem claim_c5 (s : WSState) (gid : Gid) (res : StatusRes) :
    ((res.status = "complete" ∧ res.followedBy ≠ []) →
      cancelMirror s gid res = (some cancelRefuseMsg, s, [])) ∧
    (¬(res.status = "complete" ∧ res.followedBy ≠ []) →
      (cancelMirror s gid res).1 = none ∧
      (cancelMirror s gid res).2.1 = { s with cancelled := setAdd s.cancelled gid } ∧
      (cancelMirror s gid res).2.2 =
        (if res.status = "active" then [EngineOp.forcePause, EngineOp.forceRemove]
         else [])) := by
  constructor
  · intro ⟨hst, hfb⟩
    have hact : ¬(res.status = "active") := by rw [hst]; decide
    have hmeta : (!res.followedBy.isEmpty) = true := by
      simp [List.isEmpty_iff]; exact hfb
    simp [cancelMirror, hact, hst, hmeta]
  · intro hnot
    by_cases hact : res.status = "active"
    · simp [cancelMirror, hact]
    · simp [cancelMirror, hact, hnot]

/-- C5 witness: a complete download with a metadata follow-on is refused
and not marked. -/
theorem claim_c5_witness :
    cancelMirror initWS "g" { status := "complete", followedBy := ["x"] }
      = (some cancelRefuseMsg, initWS, []) :=
  (claim_c5 initWS "g" { status := "complete", followedBy := ["x"] }).1
    (by constructor <;> decide)

/-- C8: a metadata-only `onComplete` removes the record and stops: the
resulting state differs only by the deleted download entry and the
effect trace is empty — no upload, decrypt, folder-creation or seeding
operation is invoked. -/
theorem claim_c8 (s : WSState) (gid : Gid) (d : Download) (env : CompleteEnv)
    (h : d.metadata = true) :
    onDownloadComplete s gid d env =
      Except.ok ({ s with downloads := mErase s.downloads gid }, []) := by
  have hdel : mDelete (mInsert s.downloads gid d) gid =
      Except.ok (mErase s.downloads gid) := by
    simp [mDelete, mlookup_mInsert, mErase_mInsert]
  simp [onDownloadComplete, h, hdel]

/-- C8 witness: concrete metadata completion. -/
theorem claim_c8_witness :
    onDownloadComplete { initWS with downloads := [("g", sampleMetaDl)] } "g"
      sampleMetaDl sampleEnv
      = Except.ok ({ initWS with downloads := mErase [("g", sampleMetaDl)] "g" },
          ([] : List Effect)) :=
  claim_c8 { initWS with downloads := [("g", sampleMetaDl)] } "g" sampleMetaDl
    sampleEnv (by decide)

/-- C3 counterexample: with no previous emission and an EMPTY aggregated
progress string, the tick attempts an emission (`context.respond("")`)
because Python parses the guard as `last is None or (elapsed >= 5 and
progress != "")`; the claimed condition (progress non-empty AND (first
or elapsed)) is false there, so the claimed iff fails. -/
theorem claim_c3_counterexample :
    (emitStep none 0 "" (some { hasResponse := true })).1 = true ∧
    specClaimedEmit none 0 "" = false := by decide

/-- C3 amended: an emission is attempted iff a context is installed and
either no previous tick has stamped `last_update_time` (first iteration
— regardless of whether the progress string is empty), or at least 5
seconds elapsed since the stamp and the progress string is non-empty.
Consequently two aggregation ticks with unchanged state inside the
5-second window still produce exactly one emission. -/
theorem claim_c3_amended :
    (∀ (last : Option Nat) (now : Nat) (progress : String) (ctx : Option Ctx),
      ((emitStep last now progress ctx).1 = true ↔
        (ctx.isSome = true ∧
          (last = none ∨
            (∃ t, last = some t ∧ 5 ≤ now - t ∧ progress ≠ ""))))) ∧
    (∀ (now nowB : Nat) (progress : String) (c : Ctx),
      progress ≠ "" → nowB - now < 5 →
      (emitStep none now progress (some c)).1 = true ∧
      (emitStep (emitStep none now progress (some c)).2 nowB progress
        (some c)).1 = false) := by
  constructor
  · intro last now progress ctx
    cases last with
    | none => simp [emitStep, shouldEmit]
    | some t =>
      by_cases h : 5 ≤ now - t ∧ progress ≠ ""
      · simp [emitStep, shouldEmit, h.1, h.2]
      · have he : emitStep (some t) now progress ctx = (false, some t) := by
          simp only [emitStep, shouldEmit]
          rw [if_neg (by simp only [Bool.and_eq_true, decide_eq_true_eq]; exact h)]
        rw [he]
        simp [h]
  · intro now nowB progress c hp hlt
    refine ⟨by simp [emitStep, shouldEmit], ?_⟩
    have h2 : (emitStep none now progress (some c)).2 = some now := by
      simp [emitStep, shouldEmit]
    rw [h2]
    have hb : ¬(5 ≤ nowB - now) := by omega
    simp [emitStep, shouldEmit, hb]

/-- C3 amended witness: at 4 seconds after a first emission with
unchanged non-empty progress, the second tick does not emit. -/
theorem claim_c3_witness :
    (emitStep none 10 "p" (some { hasResponse := true })).1 = true ∧
    (emitStep (emitStep none 10 "p" (some { hasResponse := true })).2 14 "p"
      (some { hasResponse := true })).1 = false :=
  claim_c3_amended.2 10 14 "p" { hasResponse := true } (by decide) (by decide)

/-- C4 counterexample: for raw torrent bytes the engine call is not
guarded, so an engine rejection propagates out of `addDownload` instead
of being formatted and returned. -/
theorem claim_c4_counterexample :
    addDownload initWS { hasResponse := false } (DlSource.torrent [0])
      (EngineResult.rejected "bad") false = Except.error "bad" := by decide

/-- C4 amended: only for URI-string sources does `addDownload` convert an
engine rejection into the formatted error text (returned before the
context is installed) and return the engine-assigned id on acceptance;
for raw torrent bytes the rejection propagates as the raw exception, and
acceptance installs the context but returns no id because the engine's
answer is never captured. -/
theorem claim_c4_amended :
    (∀ (s : WSState) (ctx : Ctx) (u e : String) (mg : Bool),
      addDownload s ctx (DlSource.uri u) (EngineResult.rejected e) mg =
        Except.ok (some (formatSE e), s, [])) ∧
    (∀ (s : WSState) (ctx : Ctx) (u gid : String) (mg : Bool), gid ≠ "" →
      ∃ s2 effs,
        addDownload s ctx (DlSource.uri u) (EngineResult.accepted gid) mg =
          Except.ok (some gid, s2, effs) ∧ s2.context = some ctx) ∧
    (∀ (s : WSState) (ctx : Ctx) (b : List Nat) (e : String) (mg : Bool),
      addDownload s ctx (DlSource.torrent b) (EngineResult.rejected e) mg =
        Except.error e) ∧
    (∀ (s : WSState) (ctx : Ctx) (b : List Nat) (g : String) (mg : Bool),
      ∃ s2 effs,
        addDownload s ctx (DlSource.torrent b) (EngineResult.accepted g) mg =
          Except.ok (none, s2, effs) ∧ s2.context = some ctx) := by
  refine ⟨fun s ctx u e mg => rfl, ?_, fun s ctx b e mg => rfl, ?_⟩
  · intro s ctx u gid mg hgid
    cases mg with
    | false =>
      exact ⟨(installContext s ctx).1, (installContext s ctx).2,
        by simp [addDownload, hgid], by simp [installContext]; split <;> rfl⟩
    | true =>
      refine ⟨{ (installContext s ctx).1 with
                  mega := setAdd (installContext s ctx).1.mega gid },
        (installContext s ctx).2, by simp [addDownload, hgid], ?_⟩
      simp [installContext]; split <;> rfl
  · intro s ctx b g mg
    exact ⟨(installContext s ctx).1, (installContext s ctx).2, rfl,
      by simp [installContext]; split <;> rfl⟩

/-- C4 amended witness: accepted URI returns the assigned gid with the
context installed. -/
theorem claim_c4_witness :
    ∃ s2 effs,
      addDownload initWS { hasResponse := false } (DlSource.uri "u")
        (EngineResult.accepted "G") false =
        Except.ok (some "G", s2, effs) ∧ s2.context = some { hasResponse := false } :=
  claim_c4_amended.2.1 initWS { hasResponse := false } "u" "G" false (by decide)

/-- Decrypting a concatenation splits at the chunk boundary, shifting
the keystream offset by the first chunk's length. -/
theorem decryptFrom_append (ks : Nat → Nat) (off : Nat) (a b : List Nat) :
    decryptFrom ks off (a ++ b) =
      decryptFrom ks off a ++ decryptFrom ks (off + a.length) b := by
  induction a generalizing off with
  | nil => simp [decryptFrom]
  | cons x xs ih =>
    simp [decryptFrom, ih (off + 1)]
    have : off + 1 + xs.length = off + (xs.length + 1) := by omega
    rw [this]

/-- Flattening the relay's output chunks equals decrypting the flattened
input stream from the same offset. -/
theorem relayDecrypt_flatten (ks : Nat → Nat) (off : Nat) (cs : List (List Nat)) :
    (relayDecrypt ks off cs).flatten = decryptFrom ks off cs.flatten := by
  induction cs generalizing off with
  | nil => simp [relayDecrypt, decryptFrom]
  | cons c rest ih =>
    simp [relayDecrypt, decryptFrom_append, ih]

/-- C9: for every ciphertext and every split of it into non-empty chunks
taken in order, decrypting each chunk through the relay and
concatenating the outputs reproduces the full-stream decryption of the
ciphertext — the plaintext — exactly. -/
theorem claim_c9 (ks : Nat → Nat) (cs : List (List Nat))
    (hne : ∀ c ∈ cs, c ≠ []) :
    (relayDecrypt ks 0 cs).flatten = decryptFrom ks 0 cs.flatten :=
  relayDecrypt_flatten ks 0 cs

/-- C9 witness: a concrete two-chunk split. -/
theorem claim_c9_witness :
    (relayDecrypt (fun i => i + 1) 0 [[5, 6], [7]]).flatten =
      decryptFrom (fun i => i + 1) 0 ([[5, 6], [7]] : List (List Nat)).flatten :=
  claim_c9 (fun i => i + 1) [[5, 6], [7]] (by decide)

/-- `checkDelete` changes no field but the context. -/
theorem checkDelete_fields (s : WSState) :
    (checkDelete s).1.downloads = s.downloads ∧
    (checkDelete s).1.uploads = s.uploads ∧
    (checkDelete s).1.cancelled = s.cancelled ∧
    (checkDelete s).1.mega = s.mega ∧
    (checkDelete s).1.tasks = s.tasks := by
  unfold checkDelete
  split <;> simp

/-- `checkDelete` on an empty registry with a standing response. -/
theorem checkDelete_pos (s : WSState)
    (h1 : s.downloads.length = 0) (h2 : hasActiveResponse s = true) :
    checkDelete s = ({ s with context := none }, [Effect.deleteResponse]) := by
  unfold checkDelete
  rw [if_pos ⟨h1, h2⟩]

/-- `checkDelete` otherwise does nothing. -/
theorem checkDelete_neg (s : WSState)
    (h : ¬(s.downloads.length = 0 ∧ hasActiveResponse s = true)) :
    checkDelete s = (s, []) := by
  unfold checkDelete
  rw [if_neg h]

/-- C6 counterexample: with both registry entries present but no active
notification context installed, the final-response branch dereferences
`self.context.msg` (aria2.py:417) and raises `AttributeError` before
either `del` runs: nothing is sent and neither entry is removed,
refuting the claim as stated at that state. -/
theorem claim_c6_counterexample :
    (mlookup ([("g", UploadState.fileUpload 0)] : List (Gid × UploadState))
      "g").isSome = true ∧
    (mlookup ([("g", sampleFileDl)] : List (Gid × Download)) "g").isSome = true ∧
    uploadProgress
      { initWS with downloads := [("g", sampleFileDl)],
                    uploads := [("g", UploadState.fileUpload 0)] }
      { name := "n", gid := "g", start_time := 0 }
      none (some { size := 10, webContentLink := "wl" }) 5 =
      Except.error PyErr.attributeError := by decide

/-- C6 amended: when the chunk stepper yields a final response AND the
active notification context is installed (the spec's invariant 4 state),
`uploadProgress` sends the result notification, deletes exactly that
gid's upload and download entries (all other gids' entries unchanged),
and — when the registry is then empty and a notification with a response
was standing — deletes the notification and clears the context slot;
with no context installed it raises `AttributeError` before deleting
anything. -/
theorem claim_c6 (s : WSState) (f : UploadHandle) (st : Option ChunkStatus)
    (r : ChunkResponse) (now : Nat) (c : Ctx)
    (hctx : s.context = some c)
    (hu : (mlookup s.uploads f.gid).isSome = true)
    (hd : (mlookup s.downloads f.gid).isSome = true) :
    ∃ s2 effs,
      uploadProgress s f st (some r) now = Except.ok (s2, none, true, effs) ∧
      mlookup s2.uploads f.gid = none ∧
      mlookup s2.downloads f.gid = none ∧
      (∀ g, ¬(g = f.gid) →
        mlookup s2.uploads g = mlookup s.uploads g ∧
        mlookup s2.downloads g = mlookup s.downloads g) ∧
      Effect.respondReply
        (MsgText.fileComplete f.name r.webContentLink r.size s.indexLink) ∈ effs ∧
      (s2.downloads.length = 0 → hasActiveResponse s = true →
        s2.context = none ∧ Effect.deleteResponse ∈ effs) ∧
      (¬(s2.downloads.length = 0 ∧ hasActiveResponse s = true) →
        s2.context = s.context) := by
  have hups : mDelete s.uploads f.gid = Except.ok (mErase s.uploads f.gid) := by
    simp [mDelete, hu]
  have hdls : mDelete s.downloads f.gid = Except.ok (mErase s.downloads f.gid) := by
    simp [mDelete, hd]
  have hdlen : (checkDelete (eraseBoth s f.gid)).1.downloads =
      (eraseBoth s f.gid).downloads := (checkDelete_fields _).1
  refine ⟨(checkDelete (eraseBoth s f.gid)).1,
    Effect.respondReply (MsgText.fileComplete f.name r.webContentLink r.size
      s.indexLink) :: (checkDelete (eraseBoth s f.gid)).2,
    ?_, ?_, ?_, ?_, ?_, ?_, ?_⟩
  · simp only [uploadProgress, hctx, hups, hdls]
    rw [← hctx]
    rfl
  · rw [(checkDelete_fields _).2.1]
    simp [eraseBoth, mlookup_mErase]
  · rw [hdlen]
    simp [eraseBoth, mlookup_mErase]
  · intro g hg
    rw [(checkDelete_fields _).2.1, hdlen]
    simp [eraseBoth, mlookup_mErase, hg]
  · exact List.mem_cons_self _ _
  · intro hlen hresp
    have hlen2 : (eraseBoth s f.gid).downloads.length = 0 := by
      rw [← hdlen]
      exact hlen
    have hresp2 : hasActiveResponse (eraseBoth s f.gid) = true := hresp
    rw [checkDelete_pos _ hlen2 hresp2]
    exact ⟨rfl, by simp⟩
  · intro hnot
    have hnot2 : ¬((eraseBoth s f.gid).downloads.length = 0 ∧
        hasActiveResponse (eraseBoth s f.gid) = true) := by
      intro ⟨ha, hb⟩
      refine hnot ⟨?_, hb⟩
      rw [hdlen]
      exact ha
    rw [checkDelete_neg _ hnot2]
    rfl

/-- C6 witness: a single in-flight file upload reaching its final
response empties the registry and retires the notification. -/
theorem claim_c6_witness :
    ∃ s2 effs,
      uploadProgress
        { initWS with downloads := [("g", sampleFileDl)],
                      uploads := [("g", UploadState.fileUpload 0)],
                      context := some { hasResponse := true } }
        { name := "n", gid := "g", start_time := 0 }
        none (some { size := 10, webContentLink := "wl" }) 5 =
        Except.ok (s2, none, true, effs) ∧
      mlookup s2.uploads "g" = none ∧
      mlookup s2.downloads "g" = none ∧
      (∀ g, ¬(g = "g") →
        mlookup s2.uploads g =
          mlookup ([("g", UploadState.fileUpload 0)] : List (Gid × UploadState)) g ∧
        mlookup s2.downloads g =
          mlookup ([("g", sampleFileDl)] : List (Gid × Download)) g) ∧
      Effect.respondReply (MsgText.fileComplete "n" "wl" 10 none) ∈ effs ∧
      (s2.downloads.length = 0 →
        hasActiveResponse
          { initWS with downloads := [("g", sampleFileDl)],
                        uploads := [("g", UploadState.fileUpload 0)],
                        context := some { hasResponse := true } } = true →
        s2.context = none ∧ Effect.deleteResponse ∈ effs) ∧
      (¬(s2.downloads.length = 0 ∧
          hasActiveResponse
            { initWS with downloads := [("g", sampleFileDl)],
                          uploads := [("g", UploadState.fileUpload 0)],
                          context := some { hasResponse := true } } = true) →
        s2.context = some { hasResponse := true }) :=
  claim_c6
    { initWS with downloads := [("g", sampleFileDl)],
                  uploads := [("g", UploadState.fileUpload 0)],
                  context := some { hasResponse := true } }
    { name := "n", gid := "g", start_time := 0 }
    none { size := 10, webContentLink := "wl" } 5 { hasResponse := true }
    (by decide) (by decide) (by decide)

/-- Deleting a key right after writing it always succeeds. -/
theorem mDelete_mInsert {β : Type} (m : List (Gid × β)) (g : Gid) (b : β) :
    mDelete (mInsert m g b) g = Except.ok (mErase m g) := by
  simp [mDelete, mlookup_mInsert, mErase_mInsert]

/-- Effect-trace membership through the seeding step. -/
theorem mem_afterSeed (s : WSState) (gid : Gid) (d : Download)
    (effs : List Effect) (x : Effect) :
    x ∈ (afterSeed s gid d effs).2 ↔
      x ∈ effs ∨ (d.bittorrent = true ∧ x = Effect.spawnSeed ("Seed-" ++ gid)) := by
  unfold afterSeed
  split <;> rename_i h <;> simp [h]

/-- Binding a successful `Except` computation reduces. -/
theorem except_ok_bind {ε α β : Type} (a : α) (f : α → Except ε β) :
    ((Except.ok a : Except ε α) >>= f) = f a := rfl

/-- Inversion of a successful `Except` bind. -/
theorem except_bind_ok {ε α β : Type} (e : Except ε α) (f : α → Except ε β)
    (v : β) (h : (e >>= f) = Except.ok v) :
    ∃ a, e = Except.ok a ∧ f a = Except.ok v := by
  cases e with
  | ok a => exact ⟨a, rfl, h⟩
  | error err => simp [Bind.bind, Except.bind] at h

/-- When the outcome list contains a cancellation, a non-raising drive
loop always reports `cancelled = true`. -/
theorem driveLoop_cancelled (gid : Gid) (s : WSState) (outs : List TaskOutcome)
    (r : WSState × Bool) (hok : driveLoop gid s outs = Except.ok r)
    (hc : TaskOutcome.cancelled ∈ outs) : r.2 = true := by
  induction outs generalizing s with
  | nil => cases hc
  | cons o rest ih =>
    cases o with
    | cancelled =>
      simp [driveLoop] at hok
      rw [← hok]
    | ok =>
      have hc2 : TaskOutcome.cancelled ∈ rest := by
        cases hc with
        | tail _ h => exact h
      simp only [driveLoop] at hok
      cases hl : mlookup s.uploads gid with
      | none => rw [hl] at hok; cases hok
      | some u =>
        cases u with
        | fileUpload t => rw [hl] at hok; cases hok
        | folderUpload n =>
          rw [hl] at hok
          exact ih _ hok hc2

/-- When a folder-upload task was cancelled, the completion handler never
emits the folder-complete notification (nor deletes the response). -/
theorem onComplete_no_folder_msg (sB : WSState) (gid : Gid) (dB : Download)
    (env : CompleteEnv) (sC : WSState) (eC : List Effect)
    (hcanc : TaskOutcome.cancelled ∈ env.folderOutcomes)
    (hok : onDownloadComplete sB gid dB env = Except.ok (sC, eC)) :
    (∀ nm fid il, ¬(Effect.respondReply (MsgText.folderComplete nm fid il) ∈ eC)) ∧
    ¬(Effect.deleteResponse ∈ eC) := by
  by_cases hmeta : dB.metadata = true
  · simp [onDownloadComplete, hmeta, mDelete_mInsert, except_ok_bind, pure,
      Except.pure] at hok
    rw [hok.2]
    simp
  · cases hpk : dB.pathKind with
    | file =>
      by_cases hmega : gid ∈ sB.mega
      · simp [onDownloadComplete, hmeta, hpk, hmega, mDelete_mInsert,
          except_ok_bind, pure, Except.pure] at hok
        have heC := congrArg Prod.snd hok
        dsimp only at heC
        constructor
        · intro nm fid il hmem
          rw [← heC, mem_afterSeed] at hmem
          rcases hmem with h | ⟨_, h⟩ <;> simp at h
        · intro hmem
          rw [← heC, mem_afterSeed] at hmem
          rcases hmem with h | ⟨_, h⟩ <;> simp at h
      · simp [onDownloadComplete, hmeta, hpk, hmega, except_ok_bind, pure,
          Except.pure] at hok
        have heC := congrArg Prod.snd hok
        dsimp only at heC
        constructor
        · intro nm fid il hmem
          rw [← heC, mem_afterSeed] at hmem
          rcases hmem with h | ⟨_, h⟩ <;> simp at h
        · intro hmem
          rw [← heC, mem_afterSeed] at hmem
          rcases hmem with h | ⟨_, h⟩ <;> simp at h
    | dir =>
      simp only [onDownloadComplete, hmeta, hpk] at hok
      rcases except_bind_ok _ _ _ hok with ⟨res, hdl, hrest⟩
      have hflag : res.2 = true := driveLoop_cancelled _ _ _ _ hdl hcanc
      simp [hflag, pure, Except.pure] at hrest
      have heC := congrArg Prod.snd hrest
      dsimp only at heC
      constructor
      · intro nm fid il hmem
        rw [← heC, mem_afterSeed] at hmem
        rcases hmem with h | ⟨_, h⟩ <;> simp at h
      · intro hmem
        rw [← heC, mem_afterSeed] at hmem
        rcases hmem with h | ⟨_, h⟩ <;> simp at h
    | inaccessible =>
      simp [onDownloadComplete, hmeta, hpk, mDelete_mInsert, except_ok_bind,
        pure, Except.pure] at hok
      have heC := congrArg Prod.snd hok
      dsimp only at heC
      constructor
      · intro nm fid il hmem
        rw [← heC, mem_afterSeed] at hmem
        rcases hmem with h | ⟨_, h⟩ <;> simp at h
      · intro hmem
        rw [← heC, mem_afterSeed] at hmem
        rcases hmem with h | ⟨_, h⟩ <;> simp at h

/-- Evaluation of the cancellation-unwind iteration on a directory
download with a live folder upload. -/
theorem unwindOne_dir (s : WSState) (gid : Gid) (d : Download)
    (h2 : mlookup s.downloads gid = some d) (h3 : d.pathKind = PathKind.dir)
    (h4 : (mlookup s.uploads gid).isSome = true) :
    unwindOne s gid =
      ((checkDelete (unwindDirState s gid)).1,
       (s.tasks.filter (fun n => n == gid)).map Effect.cancelTask
         ++ [Effect.closeGenerator gid]
         ++ (checkDelete (unwindDirState s gid)).2) := by
  simp [unwindOne, unwindDirState, h2, h3, h4]

/-- C1: for a pending-cancelled gid whose directory download has a live
folder upload, the unwind iteration of the next progress tick deletes the
download record, cancels every event-loop task named with that gid,
closes the lazy upload-task sequence, deletes the upload state and
retires the gid from the cancelled set, leaving no task named with the
gid schedulable; and a completion handler whose folder drive observed a
task cancellation never emits a folder-complete notification. -/
theorem claim_c1 (s : WSState) (gid : Gid) (d : Download) (u : UploadState)
    (h1 : gid ∈ s.cancelled) (h2 : mlookup s.downloads gid = some d)
    (h3 : d.pathKind = PathKind.dir) (h4 : mlookup s.uploads gid = some u) :
    mlookup (unwindOne s gid).1.downloads gid = none ∧
    mlookup (unwindOne s gid).1.uploads gid = none ∧
    ¬(gid ∈ (unwindOne s gid).1.cancelled) ∧
    (∀ t ∈ (unwindOne s gid).1.tasks, ¬(t = gid)) ∧
    (∀ t ∈ s.tasks, t = gid → Effect.cancelTask t ∈ (unwindOne s gid).2) ∧
    Effect.closeGenerator gid ∈ (unwindOne s gid).2 ∧
    (∀ (sB : WSState) (dB : Download) (env : CompleteEnv) (sC : WSState)
        (eC : List Effect),
      TaskOutcome.cancelled ∈ env.folderOutcomes →
      onDownloadComplete sB gid dB env = Except.ok (sC, eC) →
      (∀ nm fid il,
        ¬(Effect.respondReply (MsgText.folderComplete nm fid il) ∈ eC))) := by
  have h4s : (mlookup s.uploads gid).isSome = true := by rw [h4]; rfl
  rw [unwindOne_dir s gid d h2 h3 h4s]
  refine ⟨?_, ?_, ?_, ?_, ?_, ?_, ?_⟩
  · rw [(checkDelete_fields _).1]
    simp [unwindDirState, mlookup_mErase]
  · rw [(checkDelete_fields _).2.1]
    simp [unwindDirState, mlookup_mErase]
  · rw [(checkDelete_fields _).2.2.1]
    simp [unwindDirState, List.mem_filter]
  · rw [(checkDelete_fields _).2.2.2.2]
    intro t ht
    simp [unwindDirState, List.mem_filter] at ht
    exact ht.2
  · intro t ht heq
    have hmem : t ∈ s.tasks.filter (fun n => n == gid) := by
      rw [List.mem_filter]
      exact ⟨ht, by simp [heq]⟩
    exact List.mem_append_left _
      (List.mem_append_left _ (List.mem_map_of_mem _ hmem))
  · exact List.mem_append_left _ (List.mem_append_right _ (by simp))
  · intro sB dB env sC eC hcanc hok
    exact (onComplete_no_folder_msg sB gid dB env sC eC hcanc hok).1

/-- C1 witness: a cancelled directory download with one tagged task is
fully unwound. -/
theorem claim_c1_witness :
    mlookup (unwindOne
      { initWS with cancelled := ["g"],
                    downloads := [("g", sampleDirDl)],
                    uploads := [("g", UploadState.folderUpload 1)],
                    tasks := ["g", "other"],
                    context := some { hasResponse := true } } "g").1.downloads
      "g" = none :=
  (claim_c1
    { initWS with cancelled := ["g"],
                  downloads := [("g", sampleDirDl)],
                  uploads := [("g", UploadState.folderUpload 1)],
                  tasks := ["g", "other"],
                  context := some { hasResponse := true } }
    "g" sampleDirDl (UploadState.folderUpload 1)
    (by decide) (by decide) (by decide) (by decide)).1

/-- The seeding step changes no field but the task list. -/
theorem afterSeed_fields (s : WSState) (g : Gid) (d : Download)
    (effs : List Effect) :
    (afterSeed s g d effs).1.context = s.context ∧
    (afterSeed s g d effs).1.downloads = s.downloads ∧
    (afterSeed s g d effs).1.uploads = s.uploads ∧
    (afterSeed s g d effs).1.cancelled = s.cancelled := by
  unfold afterSeed
  split <;> simp

/-- Without a cancellation in the outcome list, a non-raising drive loop
reports `cancelled = false`. -/
theorem driveLoop_not_cancelled (gid : Gid) (s : WSState)
    (outs : List TaskOutcome) (r : WSState × Bool)
    (hok : driveLoop gid s outs = Except.ok r)
    (hc : ¬(TaskOutcome.cancelled ∈ outs)) : r.2 = false := by
  induction outs generalizing s with
  | nil =>
    simp [driveLoop] at hok
    rw [← hok]
  | cons o rest ih =>
    cases o with
    | cancelled => exact absurd (List.mem_cons_self _ _) hc
    | ok =>
      have hc2 : ¬(TaskOutcome.cancelled ∈ rest) :=
        fun h => hc (List.mem_cons_of_mem _ h)
      simp only [driveLoop] at hok
      cases hl : mlookup s.uploads gid with
      | none => rw [hl] at hok; cases hok
      | some u =>
        cases u with
        | fileUpload t => rw [hl] at hok; cases hok
        | folderUpload n =>
          rw [hl] at hok
          exact ih _ hok hc2

/-- A `checkDelete` call that ends with an empty registry and had a
standing response clears the slot and deletes the message. -/
theorem checkDelete_retire (s3 : WSState)
    (hlen : (checkDelete s3).1.downloads.length = 0)
    (hresp : hasActiveResponse s3 = true) :
    (checkDelete s3).1.context = none ∧
    (checkDelete s3).2 = [Effect.deleteResponse] := by
  have hlen3 : s3.downloads.length = 0 := by
    rw [← (checkDelete_fields s3).1]
    exact hlen
  rw [checkDelete_pos s3 hlen3 hresp]
  exact ⟨rfl, rfl⟩

/-- When an unwind iteration leaves the registry empty and a notification
with a response was standing, the notification is deleted and the slot
cleared. -/
theorem unwindOne_retire (s : WSState) (gid : Gid)
    (hlen : (unwindOne s gid).1.downloads.length = 0)
    (hresp : hasActiveResponse s = true) :
    (unwindOne s gid).1.context = none ∧
    Effect.deleteResponse ∈ (unwindOne s gid).2 := by
  cases hd : mlookup s.downloads gid with
  | none =>
    simp only [unwindOne, hd] at hlen ⊢
    obtain ⟨h1, h2⟩ := checkDelete_retire _ hlen hresp
    refine ⟨h1, ?_⟩
    rw [h2]
    simp
  | some d =>
    by_cases hf : d.pathKind = PathKind.file ∧
        (mlookup s.uploads gid).isSome = true
    · simp only [unwindOne, hd] at hlen ⊢
      rw [if_pos hf] at hlen ⊢
      obtain ⟨h1, h2⟩ := checkDelete_retire _ hlen hresp
      refine ⟨h1, ?_⟩
      rw [h2]
      simp
    · by_cases hdir : d.pathKind = PathKind.dir ∧
          (mlookup s.uploads gid).isSome = true
      · simp only [unwindOne, hd] at hlen ⊢
        rw [if_neg hf, if_pos hdir] at hlen ⊢
        obtain ⟨h1, h2⟩ := checkDelete_retire _ hlen hresp
        refine ⟨h1, ?_⟩
        rw [h2]
        simp
      · simp only [unwindOne, hd] at hlen ⊢
        rw [if_neg hf, if_neg hdir] at hlen ⊢
        obtain ⟨h1, h2⟩ := checkDelete_retire _ hlen hresp
        refine ⟨h1, ?_⟩
        rw [h2]
        simp

/-- The error handler retires the notification when it empties the
registry and a notification with a response was standing. -/
theorem onError_retire (s : WSState) (d : Download) (s2 : WSState) (effs : List Effect)
    (hok : onDownloadError s d = Except.ok (s2, effs))
    (hlen : s2.downloads.length = 0) (hresp : hasActiveResponse s = true) :
    s2.context = none ∧ Effect.deleteResponse ∈ effs := by
  cases hctx : s.context with
  | none =>
    simp only [onDownloadError, hctx] at hok
    cases hok
  | some c =>
    simp only [onDownloadError, hctx] at hok
    rcases except_bind_ok _ _ _ hok with ⟨dl, hdl, hrest⟩
    simp only [Except.ok.injEq, Prod.mk.injEq] at hrest
    obtain ⟨hs2, heffs⟩ := hrest
    subst hs2
    subst heffs
    have hcr : c.hasResponse = true := by
      unfold hasActiveResponse at hresp
      rw [hctx] at hresp
      exact hresp
    obtain ⟨h1, h2⟩ := checkDelete_retire _ hlen
      (show hasActiveResponse _ = true from hcr)
    refine ⟨h1, ?_⟩
    rw [h2]
    simp

/-- The final chunk-stepper branch retires the notification when it
empties the registry and a notification with a response was standing. -/
theorem uploadFinal_retire (s : WSState) (f : UploadHandle) (st : Option ChunkStatus)
    (r : ChunkResponse) (now : Nat) (s2 : WSState) (pm : Option ProgressMsg)
    (dn : Bool) (effs : List Effect)
    (hok : uploadProgress s f st (some r) now = Except.ok (s2, pm, dn, effs))
    (hlen : s2.downloads.length = 0) (hresp : hasActiveResponse s = true) :
    s2.context = none ∧ Effect.deleteResponse ∈ effs := by
  cases hctx : s.context with
  | none =>
    simp only [uploadProgress, hctx] at hok
    cases hok
  | some c =>
    simp only [uploadProgress, hctx] at hok
    rcases except_bind_ok _ _ _ hok with ⟨ups, hups, hrest⟩
    rcases except_bind_ok _ _ _ hrest with ⟨dls, hdls, hrest2⟩
    simp only [Except.ok.injEq, Prod.mk.injEq] at hrest2
    obtain ⟨hs2, hpm, hdn, heffs⟩ := hrest2
    subst hs2
    subst heffs
    have hcr : c.hasResponse = true := by
      unfold hasActiveResponse at hresp
      rw [hctx] at hresp
      exact hresp
    obtain ⟨h1, h2⟩ := checkDelete_retire _ hlen
      (show hasActiveResponse _ = true from hcr)
    refine ⟨h1, ?_⟩
    rw [h2]
    simp

/-- A fully successful folder upload that empties the registry deletes
the response and clears the slot. -/
theorem folderFinish_retire (s : WSState) (gid : Gid) (d : Download) (env : CompleteEnv)
    (s2 : WSState) (effs : List Effect)
    (hm : d.metadata = false) (hpk : d.pathKind = PathKind.dir)
    (hnc : ¬(TaskOutcome.cancelled ∈ env.folderOutcomes))
    (hok : onDownloadComplete s gid d env = Except.ok (s2, effs))
    (hlen : s2.downloads.length = 0) :
    s2.context = none ∧ Effect.deleteResponse ∈ effs := by
  simp only [onDownloadComplete, hm, hpk] at hok
  rcases except_bind_ok _ _ _ hok with ⟨res, hdl, hrest⟩
  have hflag : res.2 = false := driveLoop_not_cancelled _ _ _ _ hdl hnc
  rw [if_neg (by simp [hflag])] at hrest
  rcases except_bind_ok _ _ _ hrest with ⟨ups, hups, hrest2⟩
  try dsimp only at hrest2
  rcases except_bind_ok _ _ _ hrest2 with ⟨dls, hdls, hrest3⟩
  try dsimp only at hrest3
  by_cases h0 : dls.length = 0
  · rw [if_pos h0] at hrest3
    cases hctx4 : res.1.context with
    | none =>
      rw [hctx4] at hrest3
      simp at hrest3
    | some c =>
      rw [hctx4] at hrest3
      try dsimp only at hrest3
      cases hhr : c.hasResponse with
      | false =>
        rw [if_neg (by simp [hhr])] at hrest3
        cases hrest3
      | true =>
        rw [if_pos hhr] at hrest3
        have hX := Except.ok.inj hrest3
        have h1 := congrArg Prod.fst hX
        have h2 := congrArg Prod.snd hX
        dsimp only at h1 h2
        constructor
        · rw [← h1, (afterSeed_fields _ _ _ _).1]
        · rw [← h2]
          simp [mem_afterSeed]
  · rw [if_neg h0] at hrest3
    cases hctx4 : res.1.context with
    | none =>
      rw [hctx4] at hrest3
      simp at hrest3
    | some c =>
      rw [hctx4] at hrest3
      have hX := Except.ok.inj hrest3
      have h1 := congrArg Prod.fst hX
      dsimp only at h1
      exfalso
      apply h0
      have hdl2 := congrArg WSState.downloads h1
      rw [(afterSeed_fields _ _ _ _).2.1] at hdl2
      dsimp only at hdl2
      rw [hdl2]
      exact hlen

/-- A metadata-only completion never touches the context slot and sends
no delete. -/
theorem metaComplete_keeps (s : WSState) (gid : Gid) (d : Download) (env : CompleteEnv)
    (s2 : WSState) (effs : List Effect)
    (hm : d.metadata = true)
    (hok : onDownloadComplete s gid d env = Except.ok (s2, effs)) :
    s2.context = s.context ∧ ¬(Effect.deleteResponse ∈ effs) := by
  simp [onDownloadComplete, hm, mDelete_mInsert, except_ok_bind, pure,
    Except.pure] at hok
  obtain ⟨h1, h2⟩ := hok
  subst h2
  refine ⟨?_, by simp⟩
  rw [← h1]

/-- C7 counterexample: a metadata-only completion that empties the
registry leaves the active notification installed (context still set, no
delete-response effect), contradicting the claim that after every
removing operation an empty registry implies the notification was
deleted and the slot cleared. -/
theorem claim_c7_counterexample :
    (okPart (onDownloadComplete
      { initWS with downloads := [("g", sampleMetaDl)],
                    context := some { hasResponse := true } }
      "g" sampleMetaDl sampleEnv)).map
      (fun p => (p.1.downloads.length, p.1.context, p.2)) =
      some (0, some { hasResponse := true }, ([] : List Effect)) := by decide

/-- An inaccessible-path completion never touches the context slot and
sends no delete. -/
theorem inaccessible_keeps (s : WSState) (gid : Gid) (d : Download) (env : CompleteEnv)
    (s2 : WSState) (effs : List Effect)
    (hm : d.metadata = false) (hpk : d.pathKind = PathKind.inaccessible)
    (hok : onDownloadComplete s gid d env = Except.ok (s2, effs)) :
    s2.context = s.context ∧ ¬(Effect.deleteResponse ∈ effs) := by
  simp [onDownloadComplete, hm, hpk, mDelete_mInsert, except_ok_bind, pure,
    Except.pure] at hok
  constructor
  · have h1 := congrArg Prod.fst hok
    dsimp only at h1
    rw [← h1, (afterSeed_fields _ _ _ _).1]
  · have h2 := congrArg Prod.snd hok
    dsimp only at h2
    intro hmem
    rw [← h2, mem_afterSeed] at hmem
    rcases hmem with h | ⟨_, h⟩ <;> simp at h

/-- Membership form of the key-subset check. -/
theorem subKeys_iff (ups : List (Gid × UploadState))
    (dls : List (Gid × Download)) :
    subKeys ups dls = true ↔
      ∀ p ∈ ups, (mlookup dls p.1).isSome = true := by
  simp [subKeys, List.all_eq_true]

/-- A successful lookup yields a member. -/
theorem mlookup_mem {β : Type} (m : List (Gid × β)) (g : Gid) (b : β)
    (h : mlookup m g = some b) : (g, b) ∈ m := by
  induction m with
  | nil => cases h
  | cons p rest ih =>
    rcases p with ⟨a, c⟩
    by_cases hp : a = g
    · subst hp
      simp [mlookup] at h
      rw [← h]
      exact List.mem_cons_self _ _
    · simp only [mlookup] at h
      rw [if_neg hp] at h
      exact List.mem_cons_of_mem _ (ih h)

/-- Inserting a download preserves the subset. -/
theorem subKeys_insertDownload (ups : List (Gid × UploadState))
    (dls : List (Gid × Download)) (g : Gid) (d : Download)
    (h : subKeys ups dls = true) : subKeys ups (mInsert dls g d) = true := by
  rw [subKeys_iff] at h ⊢
  intro p hp
  rw [mlookup_mInsert]
  by_cases hg : p.1 = g
  · simp [hg]
  · rw [if_neg hg]
    exact h p hp

/-- Inserting an upload whose gid has a download preserves the subset. -/
theorem subKeys_insertUpload (ups : List (Gid × UploadState))
    (dls : List (Gid × Download)) (g : Gid) (u : UploadState)
    (hg : (mlookup dls g).isSome = true)
    (h : subKeys ups dls = true) : subKeys (mInsert ups g u) dls = true := by
  rw [subKeys_iff] at h ⊢
  intro p hp
  rw [mem_mInsert] at hp
  rcases hp with hp | ⟨hp, _⟩
  · rw [hp]
    exact hg
  · exact h p hp

/-- Deleting a download whose gid has no upload preserves the subset. -/
theorem subKeys_eraseDownload (ups : List (Gid × UploadState))
    (dls : List (Gid × Download)) (g : Gid)
    (hg : (mlookup ups g).isSome = false)
    (h : subKeys ups dls = true) : subKeys ups (mErase dls g) = true := by
  rw [subKeys_iff] at h ⊢
  intro p hp
  have hne : ¬(p.1 = g) := by
    intro he
    have : (mlookup ups g).isSome = true := by
      rw [mlookup_isSome]
      exact ⟨p.2, by rw [← he]; exact hp⟩
    rw [this] at hg
    cases hg
  rw [mlookup_mErase, if_neg hne]
  exact h p hp

/-- Deleting both entries of a gid preserves the subset. -/
theorem subKeys_eraseBoth (ups : List (Gid × UploadState))
    (dls : List (Gid × Download)) (g : Gid)
    (h : subKeys ups dls = true) :
    subKeys (mErase ups g) (mErase dls g) = true := by
  rw [subKeys_iff] at h ⊢
  intro p hp
  rw [mem_mErase] at hp
  rw [mlookup_mErase, if_neg hp.2]
  exact h p hp.1

/-- Deleting an upload preserves the subset. -/
theorem subKeys_eraseUpload (ups : List (Gid × UploadState))
    (dls : List (Gid × Download)) (g : Gid)
    (h : subKeys ups dls = true) : subKeys (mErase ups g) dls = true := by
  rw [subKeys_iff] at h ⊢
  intro p hp
  rw [mem_mErase] at hp
  exact h p hp.1

/-- Inversion of a successful Python `del`. -/
theorem mDelete_ok {β : Type} (m : List (Gid × β)) (g : Gid)
    (dl : List (Gid × β)) (h : mDelete m g = Except.ok dl) :
    dl = mErase m g := by
  unfold mDelete at h
  split at h
  · exact (Except.ok.inj h).symm
  · cases h

/-- C7 amended: the error-notification path, the file-upload final path,
the cancellation-unwind path and the successful-folder-completion path
each retire the active notification (delete the response message and
clear the context slot) whenever they leave the registry empty while a
notification with a response was standing; the metadata-only and
inaccessible-path completions, by contrast, remove the record without
ever retiring the notification. -/
theorem claim_c7_amended :
    (∀ (s : WSState) (gid : Gid),
      (unwindOne s gid).1.downloads.length = 0 → hasActiveResponse s = true →
      (unwindOne s gid).1.context = none ∧
      Effect.deleteResponse ∈ (unwindOne s gid).2) ∧
    (∀ (s : WSState) (d : Download) (s2 : WSState) (effs : List Effect),
      onDownloadError s d = Except.ok (s2, effs) →
      s2.downloads.length = 0 → hasActiveResponse s = true →
      s2.context = none ∧ Effect.deleteResponse ∈ effs) ∧
    (∀ (s : WSState) (f : UploadHandle) (st : Option ChunkStatus)
        (r : ChunkResponse) (now : Nat) (s2 : WSState) (pm : Option ProgressMsg)
        (dn : Bool) (effs : List Effect),
      uploadProgress s f st (some r) now = Except.ok (s2, pm, dn, effs) →
      s2.downloads.length = 0 → hasActiveResponse s = true →
      s2.context = none ∧ Effect.deleteResponse ∈ effs) ∧
    (∀ (s : WSState) (gid : Gid) (d : Download) (env : CompleteEnv)
        (s2 : WSState) (effs : List Effect),
      d.metadata = false → d.pathKind = PathKind.dir →
      ¬(TaskOutcome.cancelled ∈ env.folderOutcomes) →
      onDownloadComplete s gid d env = Except.ok (s2, effs) →
      s2.downloads.length = 0 →
      s2.context = none ∧ Effect.deleteResponse ∈ effs) ∧
    (∀ (s : WSState) (gid : Gid) (d : Download) (env : CompleteEnv)
        (s2 : WSState) (effs : List Effect),
      d.metadata = true →
      onDownloadComplete s gid d env = Except.ok (s2, effs) →
      s2.context = s.context ∧ ¬(Effect.deleteResponse ∈ effs)) ∧
    (∀ (s : WSState) (gid : Gid) (d : Download) (env : CompleteEnv)
        (s2 : WSState) (effs : List Effect),
      d.metadata = false → d.pathKind = PathKind.inaccessible →
      onDownloadComplete s gid d env = Except.ok (s2, effs) →
      s2.context = s.context ∧ ¬(Effect.deleteResponse ∈ effs)) :=
  ⟨fun s gid hlen hresp => unwindOne_retire s gid hlen hresp,
   fun s d s2 effs hok hlen hresp => onError_retire s d s2 effs hok hlen hresp,
   fun s f st r now s2 pm dn effs hok hlen hresp =>
     uploadFinal_retire s f st r now s2 pm dn effs hok hlen hresp,
   fun s gid d env s2 effs hm hpk hnc hok hlen =>
     folderFinish_retire s gid d env s2 effs hm hpk hnc hok hlen,
   fun s gid d env s2 effs hm hok =>
     metaComplete_keeps s gid d env s2 effs hm hok,
   fun s gid d env s2 effs hm hpk hok =>
     inaccessible_keeps s gid d env s2 effs hm hpk hok⟩

/-- C7 amended witness: a cancellation unwind that empties the registry
retires the standing notification. -/
theorem claim_c7_witness :
    (unwindOne { initWS with cancelled := ["g"],
                             downloads := [("g", sampleFileDl)],
                             context := some { hasResponse := true } }
      "g").1.context = none ∧
    Effect.deleteResponse ∈
      (unwindOne { initWS with cancelled := ["g"],
                               downloads := [("g", sampleFileDl)],
                               context := some { hasResponse := true } }
        "g").2 :=
  claim_c7_amended.1
    { initWS with cancelled := ["g"],
                  downloads := [("g", sampleFileDl)],
                  context := some { hasResponse := true } }
    "g" (by decide) (by decide)

/-- `checkDelete` does not affect the registry subset invariant. -/
theorem uploadsSubB_checkDelete (x : WSState) :
    uploadsSubB (checkDelete x).1 = uploadsSubB x := by
  unfold uploadsSubB
  rw [(checkDelete_fields x).1, (checkDelete_fields x).2.1]

/-- The seeding step does not affect the registry subset invariant. -/
theorem uploadsSubB_afterSeed (x : WSState) (g : Gid) (d : Download)
    (effs : List Effect) :
    uploadsSubB (afterSeed x g d effs).1 = uploadsSubB x := by
  unfold uploadsSubB
  rw [(afterSeed_fields x g d effs).2.1, (afterSeed_fields x g d effs).2.2.1]

/-- One cancellation-unwind iteration preserves the subset invariant
(provided no inaccessible-path download holds an upload entry). -/
theorem unwindOne_preserve (s : WSState) (g : Gid)
    (hsub : uploadsSubB s = true)
    (hacc : ∀ d, mlookup s.downloads g = some d →
      (mlookup s.uploads g).isSome = true →
      ¬(d.pathKind = PathKind.inaccessible)) :
    uploadsSubB (unwindOne s g).1 = true := by
  cases hd : mlookup s.downloads g with
  | none =>
    simp only [unwindOne, hd]
    rw [uploadsSubB_checkDelete]
    exact hsub
  | some d =>
    by_cases hf : d.pathKind = PathKind.file ∧
        (mlookup s.uploads g).isSome = true
    · simp only [unwindOne, hd]
      rw [if_pos hf, uploadsSubB_checkDelete]
      exact subKeys_eraseBoth s.uploads s.downloads g hsub
    · by_cases hdir : d.pathKind = PathKind.dir ∧
          (mlookup s.uploads g).isSome = true
      · simp only [unwindOne, hd]
        rw [if_neg hf, if_pos hdir, uploadsSubB_checkDelete]
        exact subKeys_eraseBoth s.uploads s.downloads g hsub
      · simp only [unwindOne, hd]
        rw [if_neg hf, if_neg hdir, uploadsSubB_checkDelete]
        cases hu : (mlookup s.uploads g).isSome with
        | false => exact subKeys_eraseDownload s.uploads s.downloads g hu hsub
        | true =>
          exfalso
          cases hpk : d.pathKind with
          | file => exact hf ⟨hpk, hu⟩
          | dir => exact hdir ⟨hpk, hu⟩
          | inaccessible => exact hacc d hd hu hpk

/-- The error handler preserves the subset invariant when the erroring
gid holds no upload entry. -/
theorem onError_preserve (s : WSState) (d : Download) (s2 : WSState)
    (effs : List Effect)
    (hsub : uploadsSubB s = true)
    (hnone : (mlookup s.uploads d.gid).isSome = false)
    (hok : onDownloadError s d = Except.ok (s2, effs)) :
    uploadsSubB s2 = true := by
  cases hctx : s.context with
  | none =>
    simp only [onDownloadError, hctx] at hok
    cases hok
  | some c =>
    simp only [onDownloadError, hctx] at hok
    rcases except_bind_ok _ _ _ hok with ⟨dl, hdl, hrest⟩
    have hdl2 := mDelete_ok _ _ _ hdl
    subst hdl2
    simp only [Except.ok.injEq, Prod.mk.injEq] at hrest
    obtain ⟨h1, h2⟩ := hrest
    rw [← h1, uploadsSubB_checkDelete]
    exact subKeys_eraseDownload s.uploads s.downloads d.gid hnone hsub

/-- The chunk stepper preserves the subset invariant. -/
theorem uploadProgress_preserve (s : WSState) (f : UploadHandle)
    (st : Option ChunkStatus) (resp : Option ChunkResponse) (now : Nat)
    (s2 : WSState) (pm : Option ProgressMsg) (dn : Bool) (effs : List Effect)
    (hsub : uploadsSubB s = true)
    (hok : uploadProgress s f st resp now = Except.ok (s2, pm, dn, effs)) :
    uploadsSubB s2 = true := by
  cases resp with
  | none =>
    cases st with
    | none =>
      simp only [uploadProgress] at hok
      cases hok
    | some stv =>
      simp only [uploadProgress] at hok
      rw [if_pos (by simp)] at hok
      simp only [Except.ok.injEq, Prod.mk.injEq] at hok
      rw [← hok.1]
      exact hsub
  | some r =>
    cases hctx : s.context with
    | none =>
      simp only [uploadProgress, hctx] at hok
      cases hok
    | some c =>
      simp only [uploadProgress, hctx] at hok
      rcases except_bind_ok _ _ _ hok with ⟨ups, hups, hrest⟩
      have hups2 := mDelete_ok _ _ _ hups
      subst hups2
      rcases except_bind_ok _ _ _ hrest with ⟨dls, hdls, hrest2⟩
      have hdls2 := mDelete_ok _ _ _ hdls
      subst hdls2
      simp only [Except.ok.injEq, Prod.mk.injEq] at hrest2
      obtain ⟨h1, _, _, _⟩ := hrest2
      rw [← h1, uploadsSubB_checkDelete]
      exact subKeys_eraseBoth s.uploads s.downloads f.gid hsub


/-- The folder drive loop preserves the subset invariant and leaves the
download map unchanged. -/
theorem driveLoop_preserve (gid : Gid) (s : WSState) (outs : List TaskOutcome)
    (r : WSState × Bool) (hok : driveLoop gid s outs = Except.ok r)
    (hsub : uploadsSubB s = true) :
    uploadsSubB r.1 = true ∧ r.1.downloads = s.downloads := by
  induction outs generalizing s with
  | nil =>
    simp [driveLoop] at hok
    rw [← hok]
    exact ⟨hsub, rfl⟩
  | cons o rest ih =>
    cases o with
    | cancelled =>
      simp [driveLoop] at hok
      rw [← hok]
      exact ⟨hsub, rfl⟩
    | ok =>
      simp only [driveLoop] at hok
      cases hl : mlookup s.uploads gid with
      | none => rw [hl] at hok; cases hok
      | some u =>
        cases u with
        | fileUpload t => rw [hl] at hok; cases hok
        | folderUpload n =>
          rw [hl] at hok
          have hg : (mlookup s.downloads gid).isSome = true := by
            rw [uploadsSubB, subKeys_iff] at hsub
            exact hsub _ (mlookup_mem _ _ _ hl)
          have hsub2 : subKeys
              (mInsert s.uploads gid (UploadState.folderUpload (n + 1)))
              s.downloads = true :=
            subKeys_insertUpload _ _ _ _ hg hsub
          exact ih { s with uploads := mInsert s.uploads gid (UploadState.folderUpload (n + 1)) } hok hsub2

/-- A full, uninterleaved completion handler run preserves the subset
invariant when the completing gid held no upload entry at entry. -/
theorem onComplete_preserve (s : WSState) (gid : Gid) (d : Download)
    (env : CompleteEnv) (s2 : WSState) (effs : List Effect)
    (hsub : uploadsSubB s = true)
    (hnone : (mlookup s.uploads gid).isSome = false)
    (hok : onDownloadComplete s gid d env = Except.ok (s2, effs)) :
    uploadsSubB s2 = true := by
  by_cases hm : d.metadata = true
  · simp [onDownloadComplete, hm, mDelete_mInsert, except_ok_bind, pure,
      Except.pure] at hok
    rw [← hok.1]
    exact subKeys_eraseDownload s.uploads s.downloads gid hnone hsub
  · cases hpk : d.pathKind with
    | file =>
      by_cases hmega : gid ∈ s.mega
      · simp [onDownloadComplete, hm, hpk, hmega, mDelete_mInsert,
          except_ok_bind, pure, Except.pure] at hok
        have h1 := congrArg Prod.fst hok
        dsimp only at h1
        rw [← h1, uploadsSubB_afterSeed]
        refine subKeys_insertUpload _ _ _ _ (by rw [mlookup_mInsert]; simp) ?_
        refine subKeys_insertDownload _ _ _ _ ?_
        exact subKeys_eraseDownload s.uploads s.downloads gid hnone hsub
      · simp [onDownloadComplete, hm, hpk, hmega, except_ok_bind, pure,
          Except.pure] at hok
        have h1 := congrArg Prod.fst hok
        dsimp only at h1
        rw [← h1, uploadsSubB_afterSeed]
        refine subKeys_insertUpload _ _ _ _ (by rw [mlookup_mInsert]; simp) ?_
        exact subKeys_insertDownload _ _ _ _ hsub
    | dir =>
      simp only [onDownloadComplete, hm, hpk] at hok
      rcases except_bind_ok _ _ _ hok with ⟨res, hdl, hrest⟩
      have hentry := driveLoop_preserve gid
        { s with downloads := mInsert s.downloads gid d,
                 uploads := mInsert s.uploads gid (UploadState.folderUpload 0) }
        env.folderOutcomes res hdl
        (subKeys_insertUpload _ _ _ _ (by rw [mlookup_mInsert]; simp)
          (subKeys_insertDownload _ _ _ _ hsub))
      try dsimp only at hrest
      cases hfl : res.2 with
      | true =>
        rw [if_pos hfl] at hrest
        have hX := Except.ok.inj hrest
        have h1 := congrArg Prod.fst hX
        dsimp only at h1
        rw [← h1, uploadsSubB_afterSeed]
        exact hentry.1
      | false =>
        rw [if_neg (by simp [hfl])] at hrest
        rcases except_bind_ok _ _ _ hrest with ⟨ups, hups, hrest2⟩
        have hups2 := mDelete_ok _ _ _ hups
        subst hups2
        try dsimp only at hrest2
        rcases except_bind_ok _ _ _ hrest2 with ⟨dls, hdls, hrest3⟩
        have hdls2 := mDelete_ok _ _ _ hdls
        subst hdls2
        try dsimp only at hrest3
        by_cases h0 : (mErase res.1.downloads gid).length = 0
        · rw [if_pos h0] at hrest3
          cases hctx4 : res.1.context with
          | none =>
            rw [hctx4] at hrest3
            simp at hrest3
          | some c =>
            rw [hctx4] at hrest3
            try dsimp only at hrest3
            cases hhr : c.hasResponse with
            | false =>
              rw [if_neg (by simp [hhr])] at hrest3
              cases hrest3
            | true =>
              rw [if_pos hhr] at hrest3
              have hX := Except.ok.inj hrest3
              have h1 := congrArg Prod.fst hX
              dsimp only at h1
              rw [← h1, uploadsSubB_afterSeed]
              exact subKeys_eraseBoth res.1.uploads res.1.downloads gid hentry.1
        · rw [if_neg h0] at hrest3
          cases hctx4 : res.1.context with
          | none =>
            rw [hctx4] at hrest3
            simp at hrest3
          | some c =>
            rw [hctx4] at hrest3
            have hX := Except.ok.inj hrest3
            have h1 := congrArg Prod.fst hX
            dsimp only at h1
            rw [← h1, uploadsSubB_afterSeed]
            exact subKeys_eraseBoth res.1.uploads res.1.downloads gid hentry.1
    | inaccessible =>
      simp [onDownloadComplete, hm, hpk, mDelete_mInsert, except_ok_bind,
        pure, Except.pure] at hok
      have h1 := congrArg Prod.fst hok
      dsimp only at h1
      rw [← h1, uploadsSubB_afterSeed]
      exact subKeys_eraseDownload s.uploads s.downloads gid hnone hsub


/-- Every atomic scheduler step preserves the subset invariant, PROVIDED
the upload-insert block runs while its gid is still in the download map
(the proviso the code does not enforce), metadata completions have no
upload entry, and no unwound inaccessible-path download holds one. -/
theorem applyA_preserve (σ : SysState) (a : Action)
    (hsub : uploadsSubB σ.ws = true)
    (hins : ∀ g, a = Action.completeFileInsert g →
      (mlookup σ.ws.downloads g).isSome = true)
    (hmeta : ∀ g d, a = Action.completeBegin g d → d.metadata = true →
      (mlookup σ.ws.uploads g).isSome = false)
    (hunw : ∀ g d, a = Action.unwind g → mlookup σ.ws.downloads g = some d →
      (mlookup σ.ws.uploads g).isSome = true →
      ¬(d.pathKind = PathKind.inaccessible)) :
    uploadsSubB (applyA σ a).ws = true := by
  cases a with
  | onStart g d =>
    exact subKeys_insertDownload _ _ _ _ hsub
  | completeBegin g d =>
    by_cases hdm : d.metadata = true
    · simp only [applyA, hdm, if_true]
      rw [show (mErase (mInsert σ.ws.downloads g d) g) = mErase σ.ws.downloads g
        from mErase_mInsert _ _ _]
      exact subKeys_eraseDownload _ _ _ (hmeta g d rfl hdm) hsub
    · simp only [applyA, hdm]
      rw [if_neg (by simp [hdm])]
      split
      · exact subKeys_insertDownload _ _ _ _ hsub
      · exact subKeys_insertDownload _ _ _ _ hsub
  | completeFileInsert g =>
    cases hpend : mlookup σ.pendingFileInsert g with
    | none =>
      simp only [applyA, hpend]
      exact hsub
    | some pd =>
      simp only [applyA, hpend]
      exact subKeys_insertUpload _ _ _ _ (hins g rfl) hsub
  | markCancel g =>
    exact hsub
  | unwind g =>
    by_cases hmem : g ∈ σ.ws.cancelled
    · simp only [applyA]
      rw [if_pos hmem]
      exact unwindOne_preserve σ.ws g hsub (fun d hd hu => hunw g d rfl hd hu)
    · simp only [applyA]
      rw [if_neg hmem]
      exact hsub

/-- C2 counterexample, two real lock-free violation modes.  First: from
the fresh state, the schedule (start g; completion handler re-queries
and classifies g as a plain file, then suspends before the upload-insert
lock block; cancelMirror marks g; a progress tick unwinds g; the
completion handler resumes and inserts the upload under the lock)
reaches a lock-free state — all five steps are whole lock-protected
blocks — whose upload map contains g while the download map does not.
Second: an unwind iteration on an upload-holding gid whose recorded path
has become neither a file nor a directory (as after the mega branch
unlinks the source at aria2.py:182) deletes the download record at line
339 but skips both upload-dropping branches (341-352), orphaning the
upload entry.  Both refute the claim that the subset only fails
transiently inside the lock during the delete-both step. -/
theorem claim_c2_counterexample :
    (uploadsSubB initWS = true ∧
     uploadsSubB (runTrace
      [Action.onStart "g" sampleFileDl, Action.completeBegin "g" sampleFileDl,
       Action.markCancel "g", Action.unwind "g",
       Action.completeFileInsert "g"]).ws = false) ∧
    (uploadsSubB { initWS with cancelled := ["g"],
                               downloads := [("g", sampleInaccDl)],
                               uploads := [("g", UploadState.fileUpload 0)] }
        = true ∧
     uploadsSubB (unwindOne
        { initWS with cancelled := ["g"],
                      downloads := [("g", sampleInaccDl)],
                      uploads := [("g", UploadState.fileUpload 0)] }
        "g").1 = false) := by decide

/-- C2 amended: every key of the upload map has a key in the download map
in every lock-free state, provided (i) each upload insertion happens
while its gid is still in the download map — i.e. no cancellation unwind
for that gid interleaves between its completion classification and the
upload-insert lock block; (ii) a gid holds no upload entry when its
completion handler (including a metadata completion) or error handler
begins — each gid completes or errors at most once; and (iii) the unwind
never processes an upload-holding gid whose recorded path has become
neither a file nor a directory.  Provisos (i) and (iii) are the two
violation modes of the counterexample and can actually fail in the
program, leaving a permanent lock-free violation; under (i)-(iii) the
invariant is preserved by every atomic scheduler step and by every
complete run of the completion, chunk-stepper and error handlers, and
the delete-both step violates the subset only inside the lock. -/
theorem claim_c2_amended :
    (∀ (σ : SysState) (a : Action),
      uploadsSubB σ.ws = true →
      (∀ g, a = Action.completeFileInsert g →
        (mlookup σ.ws.downloads g).isSome = true) →
      (∀ g d, a = Action.completeBegin g d → d.metadata = true →
        (mlookup σ.ws.uploads g).isSome = false) →
      (∀ g d, a = Action.unwind g → mlookup σ.ws.downloads g = some d →
        (mlookup σ.ws.uploads g).isSome = true →
        ¬(d.pathKind = PathKind.inaccessible)) →
      uploadsSubB (applyA σ a).ws = true) ∧
    (∀ (s : WSState) (gid : Gid) (d : Download) (env : CompleteEnv)
        (s2 : WSState) (effs : List Effect),
      uploadsSubB s = true →
      (mlookup s.uploads gid).isSome = false →
      onDownloadComplete s gid d env = Except.ok (s2, effs) →
      uploadsSubB s2 = true) ∧
    (∀ (s : WSState) (f : UploadHandle) (st : Option ChunkStatus)
        (resp : Option ChunkResponse) (now : Nat) (s2 : WSState)
        (pm : Option ProgressMsg) (dn : Bool) (effs : List Effect),
      uploadsSubB s = true →
      uploadProgress s f st resp now = Except.ok (s2, pm, dn, effs) →
      uploadsSubB s2 = true) ∧
    (∀ (s : WSState) (d : Download) (s2 : WSState) (effs : List Effect),
      uploadsSubB s = true →
      (mlookup s.uploads d.gid).isSome = false →
      onDownloadError s d = Except.ok (s2, effs) →
      uploadsSubB s2 = true) :=
  ⟨fun σ a hsub hins hmeta hunw => applyA_preserve σ a hsub hins hmeta hunw,
   fun s gid d env s2 effs hsub hnone hok =>
     onComplete_preserve s gid d env s2 effs hsub hnone hok,
   fun s f st resp now s2 pm dn effs hsub hok =>
     uploadProgress_preserve s f st resp now s2 pm dn effs hsub hok,
   fun s d s2 effs hsub hnone hok =>
     onError_preserve s d s2 effs hsub hnone hok⟩

/-- C2 amended witness: the invariant survives a concrete scheduler
step. -/
theorem claim_c2_witness :
    uploadsSubB (applyA initSys (Action.onStart "g" sampleFileDl)).ws = true :=
  claim_c2_amended.1 initSys (Action.onStart "g" sampleFileDl) (by decide)
    (fun g h => Action.noConfusion h)
    (fun g d h => Action.noConfusion h)
    (fun g d h => Action.noConfusion h)

end Aria2Spec
